import Mathlib

/-!
Verification of the TimeCreator daily tracker (src/tracker_daily.py).

Shallow embedding conventions:
* Timestamps are UTC epoch seconds, modelled as `Nat`; the calendar date of a
  timestamp (the `YYYY-MM-DD` string produced by `_get_date_str`) is modelled
  as the UTC day index `t / 86400`.
* Durations (`(end - start).total_seconds()`) are modelled as `Int`.
* Hours (float division by 3600 in the stats code) are modelled as `ℚ`.
* Python `dict`s keyed by strings are modelled as insertion-ordered
  association lists `List (String × α)`; updating an existing key keeps its
  position, a new key is appended at the end, exactly as CPython dicts behave.
* The ambient clock (`datetime.now`) is passed in as an explicit argument.
-/

/-- Lookup in an association list (Python `d[k]` / `k in d`). -/
def dictGet {α : Type} (m : List (String × α)) (k : String) : Option α :=
  match m with
  | [] => none
  | (k₁, v) :: rest => if k₁ = k then some v else dictGet rest k

/-- Lookup with a default (Python `d.get(k, dflt)`). -/
def dictGetD {α : Type} (m : List (String × α)) (k : String) (dflt : α) : α :=
  (dictGet m k).getD dflt

/-- Python `d[k] = v`: overwrite in place if present, else append at the end. -/
def dictSet {α : Type} (m : List (String × α)) (k : String) (v : α) :
    List (String × α) :=
  match m with
  | [] => [(k, v)]
  | (k₁, v₁) :: rest =>
      if k₁ = k then (k₁, v) :: rest else (k₁, v₁) :: dictSet rest k v

/-- Python `if k not in d: d[k] = 0` followed by `d[k] += v`. -/
def dictAdd (m : List (String × Int)) (k : String) (v : Int) :
    List (String × Int) :=
  match m with
  | [] => [(k, v)]
  | (k₁, v₁) :: rest =>
      if k₁ = k then (k₁, v₁ + v) :: rest else (k₁, v₁) :: dictAdd rest k v

/-- The UTC day index of a timestamp: models `_get_date_str` applied to an
ISO timestamp (two timestamps map to the same day index exactly when
`_get_date_str` gives them the same `YYYY-MM-DD` string). -/
def dateOf (t : Nat) : Nat := t / 86400

/-- A closed session as stored in a daily file:
`{"category", "start", "end", "duration"}` (`end` is a Lean keyword, so the
field is named `endTime`). -/
structure Session where
  category : String
  start : Nat
  endTime : Nat
  duration : Int
deriving DecidableEq, Repr

/-- The current (open) session: `{"category", "start"}`, no `end` key. -/
structure CurrentSession where
  category : String
  start : Nat
deriving DecidableEq, Repr

/-- One daily file `<YYYY>/<MM>/<DD>.json`:
`{"date", "sessions", "total_by_category"}` (the `created`/`modified`
metadata timestamps carry no tracked time and are not modelled). -/
structure DailyRecord where
  date : Nat
  sessions : List Session
  total_by_category : List (String × Int)
deriving DecidableEq, Repr

/-- The persistent state a `DailyTracker` instance operates on: the config
categories, the in-memory current session, the persisted
`current_session.json` content, and the per-date daily files. -/
structure TrackerState where
  categories : List String
  current_session : Option CurrentSession
  current_session_file : Option CurrentSession
  records : List (Nat × DailyRecord)
deriving DecidableEq, Repr

/-- The default config written on first run (`_load_config`). -/
def defaultCategories : List String := ["programming", "wasted", "stop"]

/-- A tracker constructed over an empty data directory. -/
def initialState : TrackerState :=
  { categories := defaultCategories
    current_session := none
    current_session_file := none
    records := [] }

/-- Association-list lookup for the `Nat`-keyed daily-file store. -/
def storeGet (recs : List (Nat × DailyRecord)) (d : Nat) :
    Option DailyRecord :=
  match recs with
  | [] => none
  | (k₁, v) :: rest => if k₁ = d then some v else storeGet rest d

/-- `_load_daily_data`: the stored record for a date, or the default empty
structure when no file exists. -/
def load_daily_data (s : TrackerState) (d : Nat) : DailyRecord :=
  match storeGet s.records d with
  | some r => r
  | none => { date := d, sessions := [], total_by_category := [] }

/-- `_save_daily_data`: write the record for a date into the store. -/
def save_daily_data (recs : List (Nat × DailyRecord)) (d : Nat)
    (r : DailyRecord) : List (Nat × DailyRecord) :=
  match recs with
  | [] => [(d, r)]
  | (k₁, v₁) :: rest =>
      if k₁ = d then (k₁, r) :: rest else (k₁, v₁) :: save_daily_data rest d r

/-- `_calculate_duration`: `(end - start).total_seconds()`. -/
def calculate_duration (startTime endTime : Nat) : Int :=
  (endTime : Int) - (startTime : Int)

/-- `DailyTracker.stop_session`, with the wall clock passed as `now`.
Returns the closed session (or `none` when idle) and the updated state. -/
def stop_session (s : TrackerState) (now : Nat) :
    Option Session × TrackerState :=
  match s.current_session with
  | none => (none, s)
  | some cur =>
      let completed : Session :=
        { category := cur.category
          start := cur.start
          endTime := now
          duration := calculate_duration cur.start now }
      let start_date := dateOf cur.start
      let daily := load_daily_data s start_date
      let daily := { daily with
        sessions := daily.sessions ++ [completed]
        total_by_category :=
          dictAdd daily.total_by_category completed.category
            completed.duration }
      let s₁ := { s with records := save_daily_data s.records start_date daily }
      let s₂ := { s₁ with
        current_session := none
        current_session_file := none }
      (some completed, s₂)

/-- `DailyTracker.start_session`.  The implicit `stop_session()` reads the
clock itself, a moment before the new session's own timestamp, so the two
reads are the separate arguments `tStop` and `tNew`. -/
def start_session (s : TrackerState) (category : String)
    (tStop tNew : Nat) : Bool × TrackerState :=
  if category ∈ s.categories then
    let s₁ := match s.current_session with
      | some _ => (stop_session s tStop).2
      | none => s
    if category = "stop" then
      (true, { s₁ with current_session := none, current_session_file := none })
    else
      let cur : CurrentSession := { category := category, start := tNew }
      (true, { s₁ with
        current_session := some cur
        current_session_file := some cur })
  else
    (false, s)

/-- A session entry of the legacy single-file format:
`{"category", "start", "end"}`, where either timestamp may be missing
(the importer skips such entries). -/
structure LegacySession where
  category : String
  start : Option Nat
  endTime : Option Nat
deriving DecidableEq, Repr

/-- The legacy single-file format:
`{"sessions": [...], "categories": [...], "current": {...}|null}`, every
top-level key optional (`if "sessions" in old_data` etc.). -/
structure LegacyData where
  sessions : Option (List LegacySession)
  categories : Option (List String)
  current : Option CurrentSession
deriving DecidableEq, Repr

/-- `sessions_by_date[start_date].append(session)`, creating the key on
first use (a fresh dict key goes to the end, as in CPython). -/
def groupAdd (g : List (Nat × List Session)) (d : Nat) (sess : Session) :
    List (Nat × List Session) :=
  match g with
  | [] => [(d, [sess])]
  | (k, ss) :: rest =>
      if k = d then (k, ss ++ [sess]) :: rest
      else (k, ss) :: groupAdd rest d sess

/-- The grouping loop of `migrate_from_old_format`: skip sessions missing
`start` or `end`, compute `duration`, and group by the start date. -/
def groupSessions (ls : List LegacySession)
    (acc : List (Nat × List Session)) : List (Nat × List Session) :=
  match ls with
  | [] => acc
  | l :: rest =>
      match l.start, l.endTime with
      | some st, some en =>
          groupSessions rest
            (groupAdd acc (dateOf st)
              { category := l.category, start := st, endTime := en,
                duration := calculate_duration st en })
      | _, _ => groupSessions rest acc

/-- The per-date record update of `migrate_from_old_format`: the code
REPLACES the stored sessions list (`daily_data["sessions"] = sessions`)
while ADDING each imported duration into the existing
`total_by_category`. -/
def mergeRecord (r : DailyRecord) (ss : List Session) : DailyRecord :=
  { r with
    sessions := ss
    total_by_category :=
      ss.foldl (fun m sess => dictAdd m sess.category sess.duration)
        r.total_by_category }

/-- The per-date merge loop of `migrate_from_old_format`. -/
def migrate_merge (s : TrackerState) (groups : List (Nat × List Session)) :
    TrackerState :=
  match groups with
  | [] => s
  | (d, ss) :: rest =>
      let daily := mergeRecord (load_daily_data s d) ss
      migrate_merge { s with records := save_daily_data s.records d daily }
        rest

/-- `DailyTracker.migrate_from_old_format`, given an already-parsed legacy
file (the missing-file and parse-failure branches return `False` without
touching the state and are not modelled further). -/
def migrate_from_old_format (s : TrackerState) (old : LegacyData) :
    Bool × TrackerState :=
  let s₁ := match old.categories with
    | some cats => { s with categories := cats }
    | none => s
  let s₂ := match old.sessions with
    | some ls => migrate_merge s₁ (groupSessions ls [])
    | none => s₁
  let s₃ := match old.current with
    | some cur =>
        { s₂ with current_session := some cur,
                  current_session_file := some cur }
    | none => s₂
  (true, s₃)

/-- `get_daily_stats`: `{cat: secs / 3600 for cat, secs in
total_by_category.items()}` (the stored values are seconds; the division
yields hours). -/
def get_daily_stats (s : TrackerState) (d : Nat) : List (String × ℚ) :=
  (load_daily_data s d).total_by_category.map
    (fun p => (p.1, (p.2 : ℚ) / 3600))

/-- The per-category accumulator of `get_category_totals`. -/
structure CatStats where
  total_hours : ℚ
  days_active : Nat
  average_per_day : ℚ
  max_day_hours : ℚ
deriving DecidableEq, Repr

/-- The zero-initialised stats dict entry. -/
def emptyCatStats : CatStats :=
  { total_hours := 0, days_active := 0, average_per_day := 0,
    max_day_hours := 0 }

/-- The init loop of `get_category_totals`: one zeroed entry per configured
category, skipping `"stop"`. -/
def initCatStats (cats : List String) : List (String × CatStats) :=
  cats.foldl
    (fun m c => if c = "stop" then m else dictSet m c emptyCatStats) []

/-- The inner update of the scan loop: `if category in category_stats`,
accumulate hours, and on a positive day bump `days_active` and
`max_day_hours`; categories absent from the stats dict are ignored. -/
def bumpCat (m : List (String × CatStats)) (c : String) (h : ℚ) :
    List (String × CatStats) :=
  match m with
  | [] => []
  | (k, st) :: rest =>
      if k = c then
        let st₁ := { st with total_hours := st.total_hours + h }
        let st₂ :=
          if 0 < h then
            { st₁ with days_active := st₁.days_active + 1,
                       max_day_hours := max st₁.max_day_hours h }
          else st₁
        (k, st₂) :: rest
      else (k, st) :: bumpCat rest c h

/-- One day of the scan loop: iterate the day's stats dict. -/
def scanDay (m : List (String × CatStats)) (dayStats : List (String × ℚ)) :
    List (String × CatStats) :=
  dayStats.foldl (fun acc p => bumpCat acc p.1 p.2) m

/-- The dates visited by `while current <= end_date`: since
`start_date = end_date - timedelta(days=days_back)` and the loop steps by
exactly one day, it visits `days_back + 1` calendar dates, from
`today - days_back` up to `today` inclusive. -/
def scanWindow (daysBack today : Nat) : List Nat :=
  (List.range (daysBack + 1)).map (fun i => today - daysBack + i)

/-- `DailyTracker.get_category_totals`, with today's date index passed
explicitly in place of `datetime.now()`. -/
def get_category_totals (s : TrackerState) (daysBack today : Nat) :
    List (String × CatStats) :=
  let window := scanWindow daysBack today
  let stats := window.foldl
    (fun acc d => scanDay acc (get_daily_stats s d))
    (initCatStats s.categories)
  let days_scanned := window.length
  stats.map (fun p =>
    (p.1,
      if 0 < days_scanned then
        { p.2 with
          average_per_day := p.2.total_hours / (days_scanned : ℚ) }
      else p.2))

/-- The raw content of `current_session.json` as a JSON object with the
keys the tracker ever looks at; each may be absent.  An all-absent value
models the empty JSON object. -/
structure SessionJson where
  category : Option String
  start : Option Nat
  endTime : Option Nat
deriving DecidableEq, Repr

/-- Python truthiness of the parsed dict: non-empty. -/
def jsonTruthy (j : SessionJson) : Bool :=
  j.category.isSome || j.start.isSome || j.endTime.isSome

/-- `_load_current_session`: given the persisted file content (`none` when
the file is absent), return the session loaded into memory and the file
content afterwards.  A truthy record with no `end` key is discarded:
`_save_current_session(None)` deletes the file and the method returns
`None`. -/
def load_current_session (file : Option SessionJson) :
    Option SessionJson × Option SessionJson :=
  match file with
  | none => (none, none)
  | some j =>
      if jsonTruthy j && j.endTime.isNone then (none, none)
      else (some j, some j)

/-- Result of a `stop_session` call whose daily-file write may raise. -/
inductive StopOutcome where
  | ok : Option Session → StopOutcome
  | storageError : StopOutcome
deriving DecidableEq, Repr

/-- `stop_session` with a fallible `_save_daily_data` (modelling an I/O
error raised by the write).  The method has no exception handler, so a
raise propagates to the caller; the two clearing statements sit AFTER the
write, so on failure neither `self.current_session` nor the persisted
current-session file has been touched, and the daily store keeps its old
content. -/
def stop_session_checked (s : TrackerState) (now : Nat)
    (dailyWriteOk : Bool) : StopOutcome × TrackerState :=
  match s.current_session with
  | none => (.ok none, s)
  | some cur =>
      let completed : Session :=
        { category := cur.category
          start := cur.start
          endTime := now
          duration := calculate_duration cur.start now }
      let start_date := dateOf cur.start
      let daily := load_daily_data s start_date
      let daily := { daily with
        sessions := daily.sessions ++ [completed]
        total_by_category :=
          dictAdd daily.total_by_category completed.category
            completed.duration }
      if dailyWriteOk then
        (.ok (some completed),
          { s with
            records := save_daily_data s.records start_date daily
            current_session := none
            current_session_file := none })
      else
        (.storageError, s)

/-- The summed durations of the sessions of a list with a given category. -/
def catSumL (ss : List Session) (c : String) : Int :=
  ((ss.filter (fun sess => sess.category = c)).map
    (fun sess => sess.duration)).sum

/-- The per-category sum of stored durations over a record's sessions. -/
def catSum (r : DailyRecord) (c : String) : Int := catSumL r.sessions c

/-- The summed durations of a list of sessions. -/
def durSum (ss : List Session) : Int :=
  (ss.map (fun sess => sess.duration)).sum

/-- The sum of stored durations over all of a record's sessions. -/
def sessionsDurationSum (r : DailyRecord) : Int := durSum r.sessions

/-- `sum(total_by_category.values())`. -/
def totalsSum (m : List (String × Int)) : Int := (m.map (fun p => p.2)).sum

/-- The spec's per-record invariant: each category total equals the summed
durations of that record's sessions with that category. -/
def recordConsistent (r : DailyRecord) : Prop :=
  ∀ c : String, dictGetD r.total_by_category c 0 = catSum r c

/-- Every record stored in a daily-file store satisfies `P`. -/
def StoreInv (P : DailyRecord → Prop) (recs : List (Nat × DailyRecord)) :
    Prop :=
  ∀ d r, storeGet recs d = some r → P r

/-- The update `stop_session` applies to the loaded daily record. -/
def recordAdd (r : DailyRecord) (sess : Session) : DailyRecord :=
  { r with
    sessions := r.sessions ++ [sess]
    total_by_category :=
      dictAdd r.total_by_category sess.category sess.duration }

/-- One SessionEngine operation (a `start_session` or `stop_session` call
at some clock readings). -/
inductive EngineStep : TrackerState → TrackerState → Prop
  | start (s : TrackerState) (c : String) (tStop tNew : Nat) :
      EngineStep s (start_session s c tStop tNew).2
  | stop (s : TrackerState) (t : Nat) :
      EngineStep s (stop_session s t).2

/-- States reachable from an empty store by engine calls alone. -/
inductive EngineReach : TrackerState → Prop
  | init : EngineReach initialState
  | step {s s₁ : TrackerState} :
      EngineReach s → EngineStep s s₁ → EngineReach s₁

/-- The legacy sessions the importer actually processes (those having both
timestamps), with their computed durations. -/
def processedSessions (ls : List LegacySession) : List Session :=
  ls.filterMap (fun l =>
    match l.start, l.endTime with
    | some st, some en =>
        some { category := l.category, start := st, endTime := en,
               duration := calculate_duration st en }
    | _, _ => none)

/-- The processed legacy sessions whose start falls on a given date. -/
def sessionsFor (ls : List LegacySession) (d : Nat) : List Session :=
  (processedSessions ls).filter (fun sess => dateOf sess.start = d)

/-- Total imported duration a legacy file contributes to one date and
category. -/
def legacyDur (ls : List LegacySession) (d : Nat) (c : String) : Int :=
  catSumL (sessionsFor ls d) c

/-- Lookup in the `sessions_by_date` grouping dict. -/
def groupGet (g : List (Nat × List Session)) (d : Nat) :
    Option (List Session) :=
  match g with
  | [] => none
  | (k, ss) :: rest => if k = d then some ss else groupGet rest d

/-- Drop from a totals dict every key that is not a configured category
other than `"stop"`. -/
def filterTotals (cats : List String) (m : List (String × Int)) :
    List (String × Int) :=
  m.filter (fun p => cats.contains p.1 && p.1 != "stop")

/-- A daily record with its totals restricted to the configured
categories other than `"stop"`. -/
def filterRecord (cats : List String) (r : DailyRecord) : DailyRecord :=
  { r with total_by_category := filterTotals cats r.total_by_category }

/-- The same store with every daily record's totals restricted to the
configured categories other than `"stop"`. -/
def filterState (s : TrackerState) : TrackerState :=
  { s with records := s.records.map (fun p =>
      (p.1, filterRecord s.categories p.2)) }

/-- A legacy file with a single closed one-hour session. -/
def exLegacy : LegacyData :=
  { sessions :=
      some [{ category := "programming", start := some 100,
              endTime := some 3700 }]
    categories := none
    current := none }

/-- The store after importing `exLegacy` once. -/
def exMig1 : TrackerState := (migrate_from_old_format initialState exLegacy).2

/-- The store after importing `exLegacy` a second time. -/
def exMig2 : TrackerState := (migrate_from_old_format exMig1 exLegacy).2

/-- The session `exLegacy` holds, as imported. -/
def exMigSession : Session :=
  { category := "programming", start := 100, endTime := 3700,
    duration := 3600 }

/-- The daily record produced by the double import of `exLegacy`. -/
def exMigRecord : DailyRecord :=
  { date := 0
    sessions := [exMigSession]
    total_by_category := [("programming", 7200)] }

/-- The store after one engine round trip: `start("programming")` at time 0,
`stop()` at time 3600. -/
def exRunState : TrackerState :=
  (stop_session (start_session initialState "programming" 0 0).2 3600).2

/-- The daily record `exRunState` holds for day 0. -/
def exRunRecord : DailyRecord :=
  { date := 0
    sessions := [{ category := "programming", start := 0, endTime := 3600,
                   duration := 3600 }]
    total_by_category := [("programming", 3600)] }

/-- A daily record holding two tracked hours on day 97. -/
def exStatsRecord : DailyRecord :=
  { date := 97
    sessions := [{ category := "programming", start := 8380800,
                   endTime := 8388000, duration := 7200 }]
    total_by_category := [("programming", 7200)] }

/-- A store whose only activity is `exStatsRecord`, two hours of
`"programming"` on day 97 — the single active day of the window scanned by
`get_category_totals 7` on day 100. -/
def exStatsState : TrackerState :=
  { categories := defaultCategories
    current_session := none
    current_session_file := none
    records := [(97, exStatsRecord)] }

theorem dictGetD_dictAdd_self (m : List (String × Int)) (k : String)
    (v : Int) : dictGetD (dictAdd m k v) k 0 = dictGetD m k 0 + v := by
  induction m with
  | nil => simp [dictAdd, dictGetD, dictGet]
  | cons p rest ih =>
      obtain ⟨k₁, v₁⟩ := p
      by_cases h : k₁ = k
      · simp [dictAdd, dictGetD, dictGet, h]
      · simpa [dictAdd, dictGetD, dictGet, h] using ih

theorem dictGetD_dictAdd_ne (m : List (String × Int)) {c k : String}
    (v : Int) (h : c ≠ k) :
    dictGetD (dictAdd m k v) c 0 = dictGetD m c 0 := by
  induction m with
  | nil => simp [dictAdd, dictGetD, dictGet, Ne.symm h]
  | cons p rest ih =>
      obtain ⟨k₁, v₁⟩ := p
      by_cases h₁ : k₁ = k
      · subst h₁
        simp [dictAdd, dictGetD, dictGet, Ne.symm h]
      · by_cases h₂ : k₁ = c
        · subst h₂
          simp [dictAdd, dictGetD, dictGet, h₁]
        · simpa [dictAdd, dictGetD, dictGet, h₁, h₂] using ih

theorem totalsSum_dictAdd (m : List (String × Int)) (k : String) (v : Int) :
    totalsSum (dictAdd m k v) = totalsSum m + v := by
  induction m with
  | nil => simp [dictAdd, totalsSum]
  | cons p rest ih =>
      obtain ⟨k₁, v₁⟩ := p
      by_cases h : k₁ = k
      · simp [dictAdd, totalsSum, h]; ring
      · simp [dictAdd, totalsSum, h] at ih ⊢; omega

theorem storeGet_save_self (recs : List (Nat × DailyRecord)) (d : Nat)
    (r : DailyRecord) : storeGet (save_daily_data recs d r) d = some r := by
  induction recs with
  | nil => simp [save_daily_data, storeGet]
  | cons p rest ih =>
      obtain ⟨k₁, v₁⟩ := p
      by_cases h : k₁ = d <;> simp [save_daily_data, storeGet, h, ih]

theorem storeGet_save_ne (recs : List (Nat × DailyRecord)) {d d₁ : Nat}
    (r : DailyRecord) (h : d₁ ≠ d) :
    storeGet (save_daily_data recs d r) d₁ = storeGet recs d₁ := by
  induction recs with
  | nil => simp [save_daily_data, storeGet, Ne.symm h]
  | cons p rest ih =>
      obtain ⟨k₁, v₁⟩ := p
      by_cases h₁ : k₁ = d
      · subst h₁
        simp [save_daily_data, storeGet, Ne.symm h]
      · by_cases h₂ : k₁ = d₁
        · subst h₂
          simp [save_daily_data, storeGet, h₁]
        · simpa [save_daily_data, storeGet, h₁, h₂] using ih

theorem catSumL_append (ss ts : List Session) (c : String) :
    catSumL (ss ++ ts) c = catSumL ss c + catSumL ts c := by
  simp [catSumL, List.filter_append]

theorem catSumL_single (sess : Session) (c : String) :
    catSumL [sess] c = if sess.category = c then sess.duration else 0 := by
  by_cases h : sess.category = c <;> simp [catSumL, h]

theorem durSum_append (ss ts : List Session) :
    durSum (ss ++ ts) = durSum ss + durSum ts := by
  simp [durSum]

theorem recordAdd_consistent {r : DailyRecord} (sess : Session)
    (hr : recordConsistent r) : recordConsistent (recordAdd r sess) := by
  intro c
  have hrc := hr c
  simp only [catSum] at hrc
  by_cases h : c = sess.category
  · subst h
    simp only [recordAdd, catSum]
    rw [dictGetD_dictAdd_self, catSumL_append, catSumL_single, hrc]
    simp
  · simp only [recordAdd, catSum]
    rw [dictGetD_dictAdd_ne _ _ h, catSumL_append, catSumL_single, hrc]
    simp [Ne.symm h]

theorem recordAdd_sum {r : DailyRecord} (sess : Session)
    (hr : totalsSum r.total_by_category = sessionsDurationSum r) :
    totalsSum (recordAdd r sess).total_by_category =
      sessionsDurationSum (recordAdd r sess) := by
  simp only [recordAdd, sessionsDurationSum] at *
  rw [totalsSum_dictAdd, durSum_append, hr]
  simp [durSum]

theorem storeInv_save {P : DailyRecord → Prop}
    {recs : List (Nat × DailyRecord)} {d₀ : Nat} {r₀ : DailyRecord}
    (hs : StoreInv P recs) (hr : P r₀) :
    StoreInv P (save_daily_data recs d₀ r₀) := by
  intro d r h
  by_cases hd : d = d₀
  · subst hd
    rw [storeGet_save_self] at h
    cases h
    exact hr
  · rw [storeGet_save_ne _ _ hd] at h
    exact hs d r h

theorem load_daily_data_inv {P : DailyRecord → Prop} {s : TrackerState}
    (hP0 : ∀ d, P { date := d, sessions := [], total_by_category := [] })
    (hs : StoreInv P s.records) (d : Nat) : P (load_daily_data s d) := by
  cases h : storeGet s.records d with
  | none => simpa [load_daily_data, h] using hP0 d
  | some r => simpa [load_daily_data, h] using hs d r h

theorem stop_session_records_inv {P : DailyRecord → Prop}
    (hadd : ∀ r sess, P r → P (recordAdd r sess))
    (hP0 : ∀ d, P { date := d, sessions := [], total_by_category := [] })
    {s : TrackerState} (hs : StoreInv P s.records) (t : Nat) :
    StoreInv P (stop_session s t).2.records := by
  cases hc : s.current_session with
  | none => simpa [stop_session, hc] using hs
  | some cur =>
      simp only [stop_session, hc]
      exact storeInv_save hs
        (hadd _ _ (load_daily_data_inv hP0 hs (dateOf cur.start)))

theorem start_session_records (s : TrackerState) (c : String)
    (t₁ t₂ : Nat) :
    (start_session s c t₁ t₂).2.records = s.records ∨
    (start_session s c t₁ t₂).2.records = (stop_session s t₁).2.records := by
  by_cases hmem : c ∈ s.categories
  · cases hc : s.current_session with
    | none =>
        by_cases hstop : c = "stop"
        · subst hstop; simp [start_session, hmem, hc]
        · simp [start_session, hmem, hc, hstop]
    | some cur =>
        by_cases hstop : c = "stop"
        · subst hstop; simp [start_session, hmem, hc]
        · simp [start_session, hmem, hc, hstop]
  · simp [start_session, hmem]

theorem engineReach_storeInv {P : DailyRecord → Prop}
    (hadd : ∀ r sess, P r → P (recordAdd r sess))
    (hP0 : ∀ d, P { date := d, sessions := [], total_by_category := [] })
    {s : TrackerState} (h : EngineReach s) : StoreInv P s.records := by
  induction h with
  | init => intro d r hr; simp [initialState, storeGet] at hr
  | step hreach hstep ih =>
      cases hstep with
      | stop t => exact stop_session_records_inv hadd hP0 ih t
      | start c t₁ t₂ =>
          rcases start_session_records _ c t₁ t₂ with h₁ | h₁
          · rw [h₁]; exact ih
          · rw [h₁]; exact stop_session_records_inv hadd hP0 ih t₁

theorem engineReach_consistent {s : TrackerState} (h : EngineReach s) :
    StoreInv recordConsistent s.records :=
  engineReach_storeInv (fun _ sess hr => recordAdd_consistent sess hr)
    (fun d c => by simp [dictGetD, dictGet, catSum, catSumL]) h

theorem engineReach_sum {s : TrackerState} (h : EngineReach s) :
    StoreInv
      (fun r => totalsSum r.total_by_category = sessionsDurationSum r)
      s.records :=
  engineReach_storeInv (fun _ sess hr => recordAdd_sum sess hr)
    (fun d => by simp [totalsSum, sessionsDurationSum, durSum]) h

theorem exRunState_reach : EngineReach exRunState :=
  EngineReach.step
    (EngineReach.step EngineReach.init
      (EngineStep.start initialState "programming" 0 0))
    (EngineStep.stop (start_session initialState "programming" 0 0).2 3600)

/-- Claim C1: with an active session, `stop_session` closes it at the
current time `now`, computes `duration = end - start`, appends the closed
session to the DailyRecord of the session's start date and adds the
duration to that record's category total, persists the record, clears the
current session in memory and on disk, and returns the closed session. -/
theorem C1_stop_session_spec (s : TrackerState) (now : Nat)
    (cur : CurrentSession) (h : s.current_session = some cur) :
    (stop_session s now).1 =
      some { category := cur.category, start := cur.start, endTime := now,
             duration := (now : Int) - (cur.start : Int) } ∧
    storeGet (stop_session s now).2.records (dateOf cur.start) =
      some (recordAdd (load_daily_data s (dateOf cur.start))
        { category := cur.category, start := cur.start, endTime := now,
          duration := (now : Int) - (cur.start : Int) }) ∧
    (stop_session s now).2.current_session = none ∧
    (stop_session s now).2.current_session_file = none := by
  refine ⟨?_, ?_, ?_, ?_⟩ <;>
    simp [stop_session, h, storeGet_save_self, recordAdd,
      calculate_duration]

theorem C1_stop_session_spec_witness :
    (start_session initialState "programming" 0 100).2.current_session =
      some { category := "programming", start := 100 } ∧
    (stop_session (start_session initialState "programming" 0 100).2
        3700).1 =
      some { category := "programming", start := 100, endTime := 3700,
             duration := (3700 : Int) - (100 : Int) } :=
  ⟨by decide,
   (C1_stop_session_spec (start_session initialState "programming" 0 100).2
      3700 { category := "programming", start := 100 } (by decide)).1⟩

/-- Claim C2 (counterexample): importing the same legacy file twice yields
a persisted DailyRecord whose `"programming"` total is 7200 while its
sessions with that category sum to 3600, violating the claimed invariant. -/
theorem C2_counterexample :
    storeGet exMig2.records 0 = some exMigRecord ∧
    ¬ recordConsistent exMigRecord := by
  refine ⟨by decide, fun h => absurd (h "programming") (by decide)⟩

/-- Claim C2 (amended): for every sequence of `start_session` and
`stop_session` calls beginning from an empty store, every persisted
DailyRecord satisfies the invariant that each category total equals the
summed durations of that record's sessions with that category
(`migrate_from_old_format` is excluded: it replaces the sessions list
while accumulating the totals, which breaks the invariant). -/
theorem C2_amended_engine_invariant {s : TrackerState} (h : EngineReach s)
    (d : Nat) (r : DailyRecord) (hr : storeGet s.records d = some r) :
    ∀ c : String, dictGetD r.total_by_category c 0 = catSum r c :=
  engineReach_consistent h d r hr

theorem C2_amended_engine_invariant_witness :
    dictGetD exRunRecord.total_by_category "programming" 0 =
      catSum exRunRecord "programming" :=
  C2_amended_engine_invariant exRunState_reach 0 exRunRecord (by decide)
    "programming"

/-- Claim C6 (counterexample): the engine-reachable record holding one
3600-second session has `sum(total_by_category.values()) = 3600`, so
multiplying by 3600 does not give the 3600-second session sum. -/
theorem C6_counterexample :
    EngineReach exRunState ∧
    storeGet exRunState.records 0 = some exRunRecord ∧
    totalsSum exRunRecord.total_by_category * 3600 ≠
      sessionsDurationSum exRunRecord :=
  ⟨exRunState_reach, by decide, by decide⟩

/-- Claim C6 (amended): for any date and any DailyRecord reachable through
engine calls, `sum(total_by_category.values())` equals the sum of
`duration` over the record's sessions — the totals are stored in seconds,
so no factor 3600 relates the two sums. -/
theorem C6_amended_totals_sum {s : TrackerState} (h : EngineReach s)
    (d : Nat) (r : DailyRecord) (hr : storeGet s.records d = some r) :
    totalsSum r.total_by_category = sessionsDurationSum r :=
  engineReach_sum h d r hr

theorem C6_amended_totals_sum_witness :
    totalsSum exRunRecord.total_by_category =
      sessionsDurationSum exRunRecord :=
  C6_amended_totals_sum exRunState_reach 0 exRunRecord (by decide)

theorem load_daily_data_eq_of_records {s s₁ : TrackerState} {d : Nat}
    (h : storeGet s₁.records d = storeGet s.records d) :
    load_daily_data s₁ d = load_daily_data s d := by
  simp only [load_daily_data, h]

/-- Claim C3: with `"stop"` configured and a session active (engine-made
current sessions never carry the category `"stop"`), `start_session "stop"`
closes and records the active session into its start date's DailyRecord,
leaves the current session absent in memory and on disk, returns success,
and appends no `"stop"`-category session to any DailyRecord. -/
theorem C3_start_stop_category (s : TrackerState) (t₁ t₂ : Nat)
    (cur : CurrentSession) (hmem : "stop" ∈ s.categories)
    (hcur : s.current_session = some cur) (hcat : cur.category ≠ "stop") :
    (start_session s "stop" t₁ t₂).1 = true ∧
    (start_session s "stop" t₁ t₂).2.current_session = none ∧
    (start_session s "stop" t₁ t₂).2.current_session_file = none ∧
    (load_daily_data (start_session s "stop" t₁ t₂).2
        (dateOf cur.start)).sessions =
      (load_daily_data s (dateOf cur.start)).sessions ++
        [{ category := cur.category, start := cur.start, endTime := t₁,
           duration := (t₁ : Int) - (cur.start : Int) }] ∧
    (∀ d sess,
      sess ∈ (load_daily_data (start_session s "stop" t₁ t₂).2 d).sessions →
      sess.category = "stop" → sess ∈ (load_daily_data s d).sessions) := by
  have hrec : (start_session s "stop" t₁ t₂).2.records =
      save_daily_data s.records (dateOf cur.start)
        (recordAdd (load_daily_data s (dateOf cur.start))
          { category := cur.category, start := cur.start, endTime := t₁,
            duration := (t₁ : Int) - (cur.start : Int) }) := by
    simp [start_session, hmem, hcur, stop_session, recordAdd,
      calculate_duration]
  refine ⟨?_, ?_, ?_, ?_, ?_⟩
  · simp [start_session, hmem, hcur]
  · simp [start_session, hmem, hcur]
  · simp [start_session, hmem, hcur]
  · simp [load_daily_data, hrec, storeGet_save_self, recordAdd]
  · intro d sess hsmem hscat
    by_cases hd : d = dateOf cur.start
    · subst hd
      simp [load_daily_data, hrec, storeGet_save_self, recordAdd] at hsmem
      rcases hsmem with hin | hin
      · exact hin
      · rw [hin] at hscat
        exact absurd hscat hcat
    · rw [load_daily_data_eq_of_records
        (hrec ▸ storeGet_save_ne s.records _ hd)] at hsmem
      exact hsmem

theorem C3_start_stop_category_witness :
    "stop" ∈ (start_session initialState "programming" 0 50).2.categories ∧
    (start_session (start_session initialState "programming" 0 50).2 "stop"
        3650 3650).1 = true ∧
    (start_session (start_session initialState "programming" 0 50).2 "stop"
        3650 3650).2.current_session = none :=
  ⟨by decide,
   (C3_start_stop_category (start_session initialState "programming" 0 50).2
      3650 3650 { category := "programming", start := 50 } (by decide)
      (by decide) (by decide)).1,
   (C3_start_stop_category (start_session initialState "programming" 0 50).2
      3650 3650 { category := "programming", start := 50 } (by decide)
      (by decide) (by decide)).2.1⟩

/-- Claim C7: on load, any truthy (non-empty) persisted current-session
record lacking an `end` field is discarded: the persisted file is deleted
and the load returns absent — so a restart clears whatever session was
active, every actual session record being non-empty. -/
theorem C7_discard_incomplete (j : SessionJson) (hj : jsonTruthy j = true)
    (he : j.endTime = none) :
    load_current_session (some j) = (none, none) := by
  simp [load_current_session, hj, he]

theorem C7_discard_incomplete_witness :
    jsonTruthy { category := some "programming", start := some 100,
                 endTime := none } = true ∧
    load_current_session
        (some { category := some "programming", start := some 100,
                endTime := none }) = (none, none) :=
  ⟨by decide,
   C7_discard_incomplete
     { category := some "programming", start := some 100, endTime := none }
     (by decide) (by decide)⟩

/-- Claim C8: with an active session, the daily-record write strictly
precedes clearing the current session: a failing write surfaces as a
storage error with the entire state — current session in memory and on
disk included — unchanged, and a successful run agrees with
`stop_session`. -/
theorem C8_write_before_clear (s : TrackerState) (now : Nat)
    (cur : CurrentSession) (h : s.current_session = some cur) :
    stop_session_checked s now false = (StopOutcome.storageError, s) ∧
    stop_session_checked s now true =
      (StopOutcome.ok (stop_session s now).1, (stop_session s now).2) := by
  constructor <;> simp [stop_session_checked, stop_session, h]

theorem C8_write_before_clear_witness :
    (start_session initialState "wasted" 0 20).2.current_session =
      some { category := "wasted", start := 20 } ∧
    stop_session_checked (start_session initialState "wasted" 0 20).2 500
        false =
      (StopOutcome.storageError, (start_session initialState "wasted" 0 20).2) :=
  ⟨by decide,
   (C8_write_before_clear (start_session initialState "wasted" 0 20).2 500
      { category := "wasted", start := 20 } (by decide)).1⟩

/-- Claim C9: `start_session` with a category outside the configured list
returns `False` and leaves the whole state unchanged — the membership
check precedes the implicit stop. -/
theorem C9_unknown_category_noop (s : TrackerState) (c : String)
    (t₁ t₂ : Nat) (h : c ∉ s.categories) :
    start_session s c t₁ t₂ = (false, s) := by
  simp [start_session, h]

theorem C9_unknown_category_noop_witness :
    "email" ∉ (start_session initialState "programming" 0 0).2.categories ∧
    start_session (start_session initialState "programming" 0 0).2 "email"
        7 8 =
      (false, (start_session initialState "programming" 0 0).2) :=
  ⟨by decide,
   C9_unknown_category_noop (start_session initialState "programming" 0 0).2
     "email" 7 8 (by decide)⟩

theorem dictGet_mem {α : Type} {m : List (String × α)} {c : String}
    {v : α} (h : dictGet m c = some v) : (c, v) ∈ m := by
  induction m with
  | nil => simp [dictGet] at h
  | cons p rest ih =>
      obtain ⟨k₁, v₁⟩ := p
      by_cases h₁ : k₁ = c
      · subst h₁
        simp [dictGet] at h
        simp [h]
      · simp [dictGet, h₁] at h
        simp [ih h]

/-- Claim C4 (counterexample): in the claimed scenario — one category
accruing 2 hours on exactly one day of the window — `get_category_totals 7`
returns `average_per_day = 1/4`, because the inclusive window
`[today - 7, today]` holds 8 scanned days, and `1/4 ≠ 2/7`. -/
theorem C4_counterexample :
    dictGet (get_category_totals exStatsState 7 100) "programming" =
      some { total_hours := 2, days_active := 1, average_per_day := 1/4,
             max_day_hours := 2 } ∧
    (1/4 : ℚ) ≠ 2/7 := by
  constructor
  · norm_num [get_category_totals, scanWindow, get_daily_stats,
      load_daily_data, storeGet, initCatStats, dictSet, scanDay, bumpCat,
      dictGet, emptyCatStats, exStatsState, exStatsRecord,
      defaultCategories, List.range_succ, max_def]
  · norm_num

/-- Claim C4 (amended): `get_category_totals days_back` scans the
`days_back + 1` calendar dates of `[today - days_back, today]` inclusive
and reports `average_per_day = total_hours / (days_back + 1)`; in the
scenario of one category accruing 2 hours on exactly one day of the
window, `get_category_totals 7` returns `total_hours = 2`,
`days_active = 1`, `max_day_hours = 2` and `average_per_day = 2/8 = 0.25`
(not `2/7`). -/
theorem C4_amended_average_window :
    (∀ (s : TrackerState) (daysBack today : Nat) (c : String)
        (st : CatStats),
      dictGet (get_category_totals s daysBack today) c = some st →
      st.average_per_day = st.total_hours / ((daysBack : ℚ) + 1)) ∧
    (scanWindow 7 100).length = 7 + 1 ∧
    dictGet (get_category_totals exStatsState 7 100) "programming" =
      some { total_hours := 2, days_active := 1, average_per_day := 1/4,
             max_day_hours := 2 } := by
  refine ⟨?_, by simp [scanWindow], ?_⟩
  · intro s daysBack today c st h
    have hm := dictGet_mem h
    simp only [get_category_totals] at hm
    rw [List.mem_map] at hm
    obtain ⟨p, hp, heq⟩ := hm
    have hn : (scanWindow daysBack today).length = daysBack + 1 := by
      simp [scanWindow]
    rw [hn] at heq
    simp only [Nat.succ_pos, if_true, Prod.mk.injEq] at heq
    obtain ⟨h₁, h₂⟩ := heq
    rw [← h₂]
    push_cast
    simp
  · norm_num [get_category_totals, scanWindow, get_daily_stats,
      load_daily_data, storeGet, initCatStats, dictSet, scanDay, bumpCat,
      dictGet, emptyCatStats, exStatsState, exStatsRecord,
      defaultCategories, List.range_succ, max_def]

theorem C4_amended_average_window_witness :
    ({ total_hours := 2, days_active := 1, average_per_day := 1/4,
       max_day_hours := 2 } : CatStats).average_per_day =
      ({ total_hours := 2, days_active := 1, average_per_day := 1/4,
         max_day_hours := 2 } : CatStats).total_hours / ((7 : ℚ) + 1) :=
  C4_amended_average_window.1 exStatsState 7 100 "programming" _
    C4_amended_average_window.2.2

theorem groupGet_groupAdd_self (g : List (Nat × List Session)) (d : Nat)
    (sess : Session) :
    groupGet (groupAdd g d sess) d =
      some ((groupGet g d).getD [] ++ [sess]) := by
  induction g with
  | nil => simp [groupAdd, groupGet]
  | cons p rest ih =>
      obtain ⟨k, ss⟩ := p
      by_cases h : k = d
      · subst h; simp [groupAdd, groupGet]
      · simp [groupAdd, groupGet, h, ih]

theorem groupGet_groupAdd_ne (g : List (Nat × List Session)) {d d₁ : Nat}
    (sess : Session) (h : d₁ ≠ d) :
    groupGet (groupAdd g d sess) d₁ = groupGet g d₁ := by
  induction g with
  | nil => simp [groupAdd, groupGet, Ne.symm h]
  | cons p rest ih =>
      obtain ⟨k, ss⟩ := p
      by_cases h₁ : k = d
      · subst h₁; simp [groupAdd, groupGet, Ne.symm h]
      · by_cases h₂ : k = d₁
        · subst h₂; simp [groupAdd, groupGet, h₁]
        · simpa [groupAdd, groupGet, h₁, h₂] using ih

theorem sessionsFor_nil (d : Nat) : sessionsFor [] d = [] := by
  simp [sessionsFor, processedSessions]

theorem groupGet_groupSessions (ls : List LegacySession) :
    ∀ (acc : List (Nat × List Session)) (d : Nat),
      (groupGet (groupSessions ls acc) d).getD [] =
        (groupGet acc d).getD [] ++ sessionsFor ls d ∧
      ((groupGet (groupSessions ls acc) d).isSome =
        ((groupGet acc d).isSome || !(sessionsFor ls d).isEmpty)) := by
  induction ls with
  | nil => intro acc d; simp [groupSessions, sessionsFor_nil]
  | cons l rest ih =>
      intro acc d
      cases hst : l.start with
      | none =>
          have hskip : sessionsFor (l :: rest) d = sessionsFor rest d := by
            simp [sessionsFor, processedSessions, hst]
          simpa [groupSessions, hst, hskip] using ih acc d
      | some st =>
          cases hen : l.endTime with
          | none =>
              have hskip : sessionsFor (l :: rest) d = sessionsFor rest d := by
                simp [sessionsFor, processedSessions, hst, hen]
              simpa [groupSessions, hst, hen, hskip] using ih acc d
          | some en =>
              by_cases hd : dateOf st = d
              · have hcons : sessionsFor (l :: rest) d =
                    { category := l.category, start := st, endTime := en,
                      duration := calculate_duration st en } ::
                      sessionsFor rest d := by
                  simp [sessionsFor, processedSessions, hst, hen, hd]
                have := ih (groupAdd acc (dateOf st)
                  { category := l.category, start := st, endTime := en,
                    duration := calculate_duration st en }) d
                rw [hd] at this
                simp only [groupGet_groupAdd_self] at this
                simp [groupSessions, hst, hen, hd, hcons, this]
              · have hskip : sessionsFor (l :: rest) d = sessionsFor rest d := by
                  simp [sessionsFor, processedSessions, hst, hen, hd]
                have := ih (groupAdd acc (dateOf st)
                  { category := l.category, start := st, endTime := en,
                    duration := calculate_duration st en }) d
                rw [groupGet_groupAdd_ne _ _ (Ne.symm hd)] at this
                simp [groupSessions, hst, hen, hskip, this]

theorem groupGet_isSome_iff (g : List (Nat × List Session)) (d : Nat) :
    (groupGet g d).isSome = true ↔ d ∈ g.map Prod.fst := by
  induction g with
  | nil => simp [groupGet]
  | cons p rest ih =>
      obtain ⟨k, ss⟩ := p
      by_cases h : k = d
      · subst h; simp [groupGet]
      · simp [groupGet, h, ih, Ne.symm h]

theorem groupAdd_keys (g : List (Nat × List Session)) (d : Nat)
    (sess : Session) :
    (groupAdd g d sess).map Prod.fst =
      if (groupGet g d).isSome then g.map Prod.fst
      else g.map Prod.fst ++ [d] := by
  induction g with
  | nil => simp [groupAdd, groupGet]
  | cons p rest ih =>
      obtain ⟨k, ss⟩ := p
      by_cases h : k = d
      · subst h; simp [groupAdd, groupGet]
      · simp only [groupAdd, groupGet, h, if_false]
        by_cases h₂ : (groupGet rest d).isSome <;> simp [h₂, ih]

theorem groupAdd_keys_nodup {g : List (Nat × List Session)} (d : Nat)
    (sess : Session) (h : (g.map Prod.fst).Nodup) :
    ((groupAdd g d sess).map Prod.fst).Nodup := by
  rw [groupAdd_keys]
  by_cases h₁ : (groupGet g d).isSome
  · simpa [h₁] using h
  · have hd : d ∉ g.map Prod.fst := fun hmem =>
      h₁ ((groupGet_isSome_iff g d).mpr hmem)
    simp [h₁, List.nodup_append, h, hd]

theorem groupSessions_keys_nodup (ls : List LegacySession) :
    ∀ acc : List (Nat × List Session), (acc.map Prod.fst).Nodup →
      ((groupSessions ls acc).map Prod.fst).Nodup := by
  induction ls with
  | nil => intro acc h; simpa [groupSessions] using h
  | cons l rest ih =>
      intro acc h
      cases hst : l.start with
      | none => simpa [groupSessions, hst] using ih acc h
      | some st =>
          cases hen : l.endTime with
          | none => simpa [groupSessions, hst, hen] using ih acc h
          | some en =>
              simp only [groupSessions, hst, hen]
              exact ih _ (groupAdd_keys_nodup _ _ h)

theorem catSumL_cons (sess : Session) (ss : List Session) (c : String) :
    catSumL (sess :: ss) c =
      (if sess.category = c then sess.duration else 0) + catSumL ss c := by
  by_cases h : sess.category = c <;> simp [catSumL, h]

theorem dictGetD_foldl_dictAdd (ss : List Session) :
    ∀ (m : List (String × Int)) (c : String),
      dictGetD
        (ss.foldl (fun m₁ sess => dictAdd m₁ sess.category sess.duration) m)
        c 0 =
        dictGetD m c 0 + catSumL ss c := by
  induction ss with
  | nil => intro m c; simp [catSumL]
  | cons sess rest ih =>
      intro m c
      simp only [List.foldl_cons]
      rw [ih, catSumL_cons]
      by_cases h : sess.category = c
      · subst h
        rw [dictGetD_dictAdd_self]
        simp only [eq_self_iff_true, if_true]
        omega
      · rw [dictGetD_dictAdd_ne _ _ (Ne.symm h)]
        simp [h]

theorem migrate_merge_records_congr :
    ∀ (G : List (Nat × List Session)) {s s₁ : TrackerState},
      s₁.records = s.records →
      (migrate_merge s₁ G).records = (migrate_merge s G).records := by
  intro G
  induction G with
  | nil => intro s s₁ h; simpa [migrate_merge] using h
  | cons p rest ih =>
      intro s s₁ h
      obtain ⟨d, ss⟩ := p
      simp only [migrate_merge]
      apply ih
      simp [load_daily_data, h]

theorem migrate_merge_get_of_not_mem :
    ∀ (G : List (Nat × List Session)) (s : TrackerState) {d : Nat},
      groupGet G d = none →
      storeGet (migrate_merge s G).records d = storeGet s.records d := by
  intro G
  induction G with
  | nil => intro s d h; simp [migrate_merge]
  | cons p rest ih =>
      intro s d h
      obtain ⟨d₀, ss₀⟩ := p
      have hne : d₀ ≠ d := by
        intro hh
        subst hh
        simp [groupGet] at h
      have hrest : groupGet rest d = none := by
        simpa [groupGet, hne] using h
      simp only [migrate_merge]
      rw [ih _ hrest]
      exact storeGet_save_ne _ _ (Ne.symm hne)

theorem migrate_merge_get_of_mem :
    ∀ (G : List (Nat × List Session)) (s : TrackerState) {d : Nat}
      {ss : List Session},
      (G.map Prod.fst).Nodup → groupGet G d = some ss →
      storeGet (migrate_merge s G).records d =
        some (mergeRecord (load_daily_data s d) ss) := by
  intro G
  induction G with
  | nil => intro s d ss _ h; simp [groupGet] at h
  | cons p rest ih =>
      intro s d ss hnd h
      obtain ⟨d₀, ss₀⟩ := p
      by_cases hd : d₀ = d
      · subst hd
        have hss : ss₀ = ss := by simpa [groupGet] using h
        subst hss
        simp only [List.map_cons, List.nodup_cons] at hnd
        have hd_not : groupGet rest d₀ = none := by
          cases hh : groupGet rest d₀ with
          | none => rfl
          | some x =>
              exact absurd ((groupGet_isSome_iff _ _).mp (by simp [hh]))
                hnd.1
        simp only [migrate_merge]
        rw [migrate_merge_get_of_not_mem rest _ hd_not]
        exact storeGet_save_self _ _ _
      · have hrest : groupGet rest d = some ss := by
          simpa [groupGet, hd] using h
        simp only [List.map_cons, List.nodup_cons] at hnd
        simp only [migrate_merge]
        rw [ih _ hnd.2 hrest,
          load_daily_data_eq_of_records
            (storeGet_save_ne s.records _ (Ne.symm hd))]

theorem migrate_records (t : TrackerState) (old : LegacyData)
    {ls : List LegacySession} (h : old.sessions = some ls) :
    (migrate_from_old_format t old).2.records =
      (migrate_merge t (groupSessions ls [])).records := by
  cases hc : old.categories with
  | none =>
      cases hcur : old.current with
      | none => simp [migrate_from_old_format, h, hc, hcur]
      | some cur => simp [migrate_from_old_format, h, hc, hcur]
  | some cats =>
      cases hcur : old.current with
      | none =>
          simp only [migrate_from_old_format, h, hc, hcur]
          exact migrate_merge_records_congr _ rfl
      | some cur =>
          simp only [migrate_from_old_format, h, hc, hcur]
          exact migrate_merge_records_congr _ rfl

/-- Claim C5 (counterexample): importing the one-session legacy file twice
leaves the affected record's sessions list with a single copy of
the imported session — the second run does not append the legacy
sessions a second time — while the category total doubles from 3600
to 7200. -/
theorem C5_counterexample :
    (storeGet exMig1.records 0).map DailyRecord.sessions =
      some [exMigSession] ∧
    (storeGet exMig2.records 0).map DailyRecord.sessions =
      some [exMigSession] ∧
    (storeGet exMig1.records 0).map DailyRecord.total_by_category =
      some [("programming", 3600)] ∧
    (storeGet exMig2.records 0).map DailyRecord.total_by_category =
      some [("programming", 7200)] := by
  refine ⟨by decide, by decide, by decide, by decide⟩

/-- Claim C5 (amended): the merge of `migrate_from_old_format` REPLACES
each affected DailyRecord's sessions list with the legacy sessions of that
date while ADDING their durations into `total_by_category`; hence each run
of the import adds the legacy durations once more to every affected record's
totals — running it twice double-counts the durations — while the sessions
list after the second run equals the sessions list after the first (the
legacy entries appear once, not twice). -/
theorem C5_amended_double_import (s : TrackerState) (old : LegacyData)
    (ls : List LegacySession) (h : old.sessions = some ls) (d : Nat)
    (c : String) :
    (load_daily_data (migrate_from_old_format
        (migrate_from_old_format s old).2 old).2 d).sessions =
      (load_daily_data (migrate_from_old_format s old).2 d).sessions ∧
    dictGetD (load_daily_data (migrate_from_old_format s old).2
        d).total_by_category c 0 =
      dictGetD (load_daily_data s d).total_by_category c 0 +
        legacyDur ls d c ∧
    dictGetD (load_daily_data (migrate_from_old_format
        (migrate_from_old_format s old).2 old).2 d).total_by_category c 0 =
      dictGetD (load_daily_data (migrate_from_old_format s old).2
          d).total_by_category c 0 + legacyDur ls d c := by
  have hnd : ((groupSessions ls []).map Prod.fst).Nodup :=
    groupSessions_keys_nodup ls [] (by simp)
  have hchar := groupGet_groupSessions ls [] d
  have hr1 := migrate_records s old h
  have hr2 := migrate_records (migrate_from_old_format s old).2 old h
  cases hGd : groupGet (groupSessions ls []) d with
  | none =>
      have hemp : sessionsFor ls d = [] := by
        have h₂ := hchar.2
        rw [hGd] at h₂
        simpa [groupGet] using h₂.symm
      have l1 : load_daily_data (migrate_from_old_format s old).2 d =
          load_daily_data s d :=
        load_daily_data_eq_of_records
          (by rw [hr1]; exact migrate_merge_get_of_not_mem _ s hGd)
      have l2 : load_daily_data (migrate_from_old_format
          (migrate_from_old_format s old).2 old).2 d =
          load_daily_data (migrate_from_old_format s old).2 d :=
        load_daily_data_eq_of_records
          (by rw [hr2]; exact migrate_merge_get_of_not_mem _ _ hGd)
      rw [l2, l1]
      simp [legacyDur, hemp, catSumL]
  | some ss =>
      have hss : ss = sessionsFor ls d := by
        have h₁ := hchar.1
        rw [hGd] at h₁
        simpa using h₁
      have g1 : storeGet (migrate_from_old_format s old).2.records d =
          some (mergeRecord (load_daily_data s d) ss) := by
        rw [hr1]; exact migrate_merge_get_of_mem _ s hnd hGd
      have g2 : storeGet (migrate_from_old_format
          (migrate_from_old_format s old).2 old).2.records d =
          some (mergeRecord
            (load_daily_data (migrate_from_old_format s old).2 d) ss) := by
        rw [hr2]; exact migrate_merge_get_of_mem _ _ hnd hGd
      have l1 : load_daily_data (migrate_from_old_format s old).2 d =
          mergeRecord (load_daily_data s d) ss := by
        simp [load_daily_data, g1]
      have l2 : load_daily_data (migrate_from_old_format
          (migrate_from_old_format s old).2 old).2 d =
          mergeRecord
            (load_daily_data (migrate_from_old_format s old).2 d) ss := by
        simp [load_daily_data, g2]
      refine ⟨?_, ?_, ?_⟩
      · rw [l2, l1]
        simp [mergeRecord]
      · rw [l1]
        simp only [mergeRecord]
        rw [dictGetD_foldl_dictAdd, hss]
        rfl
      · rw [l2]
        simp only [mergeRecord]
        rw [dictGetD_foldl_dictAdd, hss]
        rfl

theorem C5_amended_double_import_witness :
    (load_daily_data exMig2 0).sessions =
      (load_daily_data exMig1 0).sessions ∧
    dictGetD (load_daily_data exMig2 0).total_by_category "programming" 0 =
      dictGetD (load_daily_data exMig1 0).total_by_category "programming" 0
        + legacyDur [{ category := "programming", start := some 100,
                       endTime := some 3700 }] 0 "programming" :=
  ⟨(C5_amended_double_import initialState exLegacy
      [{ category := "programming", start := some 100,
         endTime := some 3700 }] (by decide) 0 "programming").1,
   (C5_amended_double_import initialState exLegacy
      [{ category := "programming", start := some 100,
         endTime := some 3700 }] (by decide) 0 "programming").2.2⟩

theorem dictGet_isSome_iff {α : Type} (m : List (String × α)) (c : String) :
    (dictGet m c).isSome = true ↔ c ∈ m.map Prod.fst := by
  induction m with
  | nil => simp [dictGet]
  | cons p rest ih =>
      obtain ⟨k, v⟩ := p
      by_cases h : k = c
      · subst h; simp [dictGet]
      · simp [dictGet, h, ih, Ne.symm h]

theorem bumpCat_keys (m : List (String × CatStats)) (c : String) (h : ℚ) :
    (bumpCat m c h).map Prod.fst = m.map Prod.fst := by
  induction m with
  | nil => simp [bumpCat]
  | cons p rest ih =>
      obtain ⟨k, st⟩ := p
      by_cases h₁ : k = c <;> simp [bumpCat, h₁, ih]

theorem scanDay_keys (dayStats : List (String × ℚ)) :
    ∀ m : List (String × CatStats),
      (scanDay m dayStats).map Prod.fst = m.map Prod.fst := by
  induction dayStats with
  | nil => intro m; simp [scanDay]
  | cons q rest ih =>
      intro m
      simp only [scanDay, List.foldl_cons] at ih ⊢
      rw [ih, bumpCat_keys]

theorem scanFold_keys (window : List Nat) (stats : TrackerState → Nat →
    List (String × ℚ)) (s : TrackerState) :
    ∀ m : List (String × CatStats),
      ((window.foldl (fun acc d => scanDay acc (stats s d)) m).map
        Prod.fst) = m.map Prod.fst := by
  induction window with
  | nil => intro m; simp
  | cons d rest ih =>
      intro m
      simp only [List.foldl_cons]
      rw [ih, scanDay_keys]

theorem map_update_keys {α : Type} {β : Type} (m : List (String × α))
    (f : String × α → β) :
    (m.map (fun p => (p.1, f p))).map Prod.fst = m.map Prod.fst := by
  induction m with
  | nil => simp
  | cons p rest ih => simp [ih]

theorem dictSet_keys_mem {α : Type} (m : List (String × α)) (k c : String)
    (v : α) :
    c ∈ (dictSet m k v).map Prod.fst ↔ c ∈ m.map Prod.fst ∨ c = k := by
  induction m with
  | nil => simp [dictSet]
  | cons p rest ih =>
      obtain ⟨k₁, v₁⟩ := p
      by_cases h : k₁ = k
      · subst h; simp [dictSet]; tauto
      · simp [dictSet, h, ih]; tauto

theorem initCatStats_aux (cats : List String) (c : String) :
    ∀ acc : List (String × CatStats),
      c ∈ ((cats.foldl
        (fun m cat => if cat = "stop" then m else dictSet m cat
          emptyCatStats) acc).map Prod.fst) ↔
      (c ∈ acc.map Prod.fst ∨ (c ∈ cats ∧ c ≠ "stop")) := by
  induction cats with
  | nil => intro acc; simp
  | cons cat rest ih =>
      intro acc
      by_cases hstop : cat = "stop"
      · subst hstop
        simp only [List.foldl_cons, eq_self_iff_true, if_true]
        rw [ih acc]
        simp [List.mem_cons]
        tauto
      · simp only [List.foldl_cons, if_neg hstop]
        rw [ih (dictSet acc cat emptyCatStats), dictSet_keys_mem]
        have hcs : c = cat → c ≠ "stop" := fun h => h ▸ hstop
        simp [List.mem_cons]
        tauto

theorem initCatStats_keys_mem (cats : List String) (c : String) :
    c ∈ (initCatStats cats).map Prod.fst ↔ c ∈ cats ∧ c ≠ "stop" := by
  simpa [initCatStats] using initCatStats_aux cats c []

theorem storeGet_map (recs : List (Nat × DailyRecord))
    (f : DailyRecord → DailyRecord) (d : Nat) :
    storeGet (recs.map (fun p => (p.1, f p.2))) d =
      (storeGet recs d).map f := by
  induction recs with
  | nil => simp [storeGet]
  | cons p rest ih =>
      obtain ⟨k, r⟩ := p
      by_cases h : k = d <;> simp [storeGet, h, ih]

theorem filter_map_comm (m : List (String × Int)) (p : String → Bool)
    (g : Int → ℚ) :
    (m.filter (fun q => p q.1)).map (fun q => (q.1, g q.2)) =
      (m.map (fun q => (q.1, g q.2))).filter (fun q => p q.1) := by
  induction m with
  | nil => simp
  | cons q rest ih =>
      by_cases h : p q.1 <;> simp [List.filter_cons, h, ih]

theorem get_daily_stats_filterState (s : TrackerState) (d : Nat) :
    get_daily_stats (filterState s) d =
      (get_daily_stats s d).filter
        (fun q => s.categories.contains q.1 && q.1 != "stop") := by
  cases h : storeGet s.records d with
  | none =>
      have h₁ : storeGet (filterState s).records d = none := by
        simp [filterState, storeGet_map, h]
      simp [get_daily_stats, load_daily_data, h, h₁]
  | some r =>
      have h₁ : storeGet (filterState s).records d =
          some (filterRecord s.categories r) := by
        simp [filterState, storeGet_map, h]
      simp only [get_daily_stats, load_daily_data, h, h₁, filterRecord,
        filterTotals]
      exact filter_map_comm r.total_by_category
        (fun k => s.categories.contains k && k != "stop")
        (fun v => (v : ℚ) / 3600)

theorem bumpCat_not_mem (m : List (String × CatStats)) (c : String)
    (h : ℚ) (hc : c ∉ m.map Prod.fst) : bumpCat m c h = m := by
  induction m with
  | nil => simp [bumpCat]
  | cons p rest ih =>
      obtain ⟨k, st⟩ := p
      simp only [List.map_cons, List.mem_cons] at hc
      push_neg at hc
      simp [bumpCat, Ne.symm hc.1, ih hc.2]

theorem scanDay_filter (dayStats : List (String × ℚ)) (p : String → Bool) :
    ∀ m : List (String × CatStats),
      (∀ k, k ∈ m.map Prod.fst → p k = true) →
      scanDay m (dayStats.filter (fun q => p q.1)) = scanDay m dayStats := by
  induction dayStats with
  | nil => intro m _; simp
  | cons q rest ih =>
      intro m hm
      by_cases hq : p q.1
      · simp only [List.filter_cons, hq, if_true, scanDay, List.foldl_cons]
        exact ih (bumpCat m q.1 q.2)
          (by rw [bumpCat_keys]; exact hm)
      · have hnot : q.1 ∉ m.map Prod.fst := fun hmem => hq (hm _ hmem)
        simp only [List.filter_cons, hq, if_false, Bool.false_eq_true,
          scanDay, List.foldl_cons, bumpCat_not_mem m q.1 q.2 hnot]
        exact ih m hm

theorem scanFold_filter (window : List Nat) (s : TrackerState) :
    ∀ m : List (String × CatStats),
      (∀ k, k ∈ m.map Prod.fst →
        (s.categories.contains k && k != "stop") = true) →
      window.foldl
        (fun acc d => scanDay acc (get_daily_stats (filterState s) d)) m =
      window.foldl (fun acc d => scanDay acc (get_daily_stats s d)) m := by
  induction window with
  | nil => intro m _; simp
  | cons d rest ih =>
      intro m hm
      simp only [List.foldl_cons]
      rw [get_daily_stats_filterState s d, scanDay_filter _ _ m hm]
      exact ih (scanDay m (get_daily_stats s d))
        (by rw [scanDay_keys]; exact hm)

theorem initCatStats_keys_allowed (cats : List String) :
    ∀ c, c ∈ (initCatStats cats).map Prod.fst →
      (cats.contains c && c != "stop") = true := by
  intro c hc
  rw [initCatStats_keys_mem] at hc
  simp only [Bool.and_eq_true, bne_iff_ne]
  exact ⟨by simpa using hc.1, hc.2⟩

/-- Claim C10: `get_category_totals` returns entries exactly for the
categories of the current config other than `"stop"`, and hours stored in
DailyRecords under `"stop"` or under a category no longer in the config
are silently excluded: deleting those totals entries from every stored
record leaves the whole result — totals, active days, averages and maxima
— unchanged, for every `days_back`, scan day and store state. -/
theorem C10_config_categories_only (s : TrackerState)
    (daysBack today : Nat) :
    get_category_totals (filterState s) daysBack today =
      get_category_totals s daysBack today ∧
    ∀ c : String,
      (dictGet (get_category_totals s daysBack today) c).isSome = true ↔
        (c ∈ s.categories ∧ c ≠ "stop") := by
  constructor
  · simp only [get_category_totals]
    have hcats : (filterState s).categories = s.categories := rfl
    rw [hcats]
    rw [scanFold_filter (scanWindow daysBack today) s
      (initCatStats s.categories)
      (initCatStats_keys_allowed s.categories)]
  · intro c
    simp only [get_category_totals]
    rw [dictGet_isSome_iff, map_update_keys, scanFold_keys,
      initCatStats_keys_mem]
